import Mathlib

/-!
Verification of the bingo pattern-matching and waiting-number analysis engine.

The development embeds the data model and the operations of the engine:
the 5×5 card and cell shapes, the marking primitives (`markNumber`,
`applyCalledNumbersToCards`), the call-history operation (`addCalledNumber`),
the pattern matcher (`checkPattern`, `getMissingNumbers`, `getWinningPaths`,
`isOnPot`) and the analyzer (`analyzeCardForPattern`, `analyzeGame`).
Cards are fixed to the 5×5 shape of the data model, with cells indexed by
`Fin 5 × Fin 5`.  Cell values are either the FREE marker or an integer; the
generator's numeric placeholder is the integer 0.  The source's in-place
loops with early termination or best-so-far tracking become structural
recursion or folds over the same index enumerations, in the same order.
-/

namespace Bingo

/-- Column letter of a bingo cell (B, I, N, G, O). -/
inductive Col where
  | B | I | N | G | O
deriving DecidableEq, Repr

/-- Value stored in a cell: the FREE marker or a number.  The generator fills
cells with the numeric placeholder 0 before assigning real values, so 0 is a
representable cell value. -/
inductive CellValue where
  | free
  | num (n : Int)
deriving DecidableEq, Repr

/-- The numeric cast the source applies to a cell value once the FREE marker
has been ruled out. -/
def CellValue.toNumber : CellValue → Int
  | .free => 0
  | .num n => n

/-- A single cell of a bingo card. -/
structure BingoCell where
  column : Col
  value : CellValue
  marked : Bool
deriving DecidableEq, Repr

/-- A 5×5 bingo card; `cells r c` is the cell at row `r`, column `c`. -/
@[ext]
structure BingoCard where
  id : String
  name : Option String
  cells : Fin 5 → Fin 5 → BingoCell
  createdAt : Int

/-- A winning-pattern descriptor: a name and a 5×5 grid of required flags. -/
@[ext]
structure WinningPattern where
  id : String
  name : String
  grid : Fin 5 → Fin 5 → Bool
  createdAt : Int

/-- A placeholder card used as the default value of list lookups. -/
def dummyCard : BingoCard :=
  { id := "", name := none
  , cells := fun _ _ => { column := Col.B, value := CellValue.num 0, marked := false }
  , createdAt := 0 }

/-! ## Card marking primitives -/

/-- `markNumber card n` marks every cell whose value equals `n`; all other
cells are kept as they are. -/
def markNumber (card : BingoCard) (number : Int) : BingoCard :=
  { card with cells := fun r c =>
      let cell := card.cells r c
      if cell.value = CellValue.num number then { cell with marked := true } else cell }

/-- Does a list of called numbers contain the given cell value?  The FREE
marker never matches a number in the list. -/
def cellIsCalled (v : CellValue) (calledNumbers : List Int) : Bool :=
  match v with
  | .free => false
  | .num n => calledNumbers.contains n

/-- `applyCalledNumbersToCards cards calledNumbers` recomputes every marked
flag: a cell becomes marked when its value is FREE, or when its value is a
number other than the placeholder 0 that occurs in `calledNumbers`. -/
def applyCalledNumbersToCards (cards : List BingoCard) (calledNumbers : List Int) :
    List BingoCard :=
  cards.map fun card =>
    { card with cells := fun r c =>
        let cell := card.cells r c
        { cell with marked :=
            if cell.value = CellValue.free then true
            else if cell.value = CellValue.num 0 then false
            else cellIsCalled cell.value calledNumbers } }

/-! ## Game session -/

/-- Active game state: selected cards and patterns plus the call history. -/
structure GameSession where
  activeCardIds : List String
  activePatternIds : List String
  calledNumbers : List Int
  sessionStartTime : Int
  isActive : Bool
deriving DecidableEq, Repr

/-- A bingo number is valid when it lies between 1 and 75.  Inputs are
integers by type, which embeds the source's integrality test. -/
def isValidBingoNumber (num : Int) : Bool :=
  1 ≤ num && num ≤ 75

/-- `addCalledNumber session number` rejects an out-of-range or repeated
number and otherwise appends it to the call history. -/
def addCalledNumber (session : GameSession) (number : Int) :
    Except String GameSession :=
  if ¬ isValidBingoNumber number then Except.error "Invalid Bingo number"
  else if number ∈ session.calledNumbers then Except.error "Number already called"
  else Except.ok { session with calledNumbers := session.calledNumbers ++ [number] }

/-! ## Pattern matcher

The five special pattern names are dispatched on the name string; every
special branch reads only the card, never the pattern grid.  A `Candidate`
records, for one pair / row / column / diagonal, how many of its cells are
marked and the values of its unmarked non-FREE cells in scan order. -/

/-- The five reserved pattern names with positional semantics. -/
def specialNames : List String :=
  ["Dikit", "Patong", "Horizontal Line", "Vertical Line", "Diagonal Line"]

/-- One candidate way to complete a special pattern: its marked-cell count
and the values of its unmarked non-FREE cells in scan order. -/
structure Candidate where
  mc : Nat
  miss : List Int
deriving DecidableEq, Repr

/-- Candidate for an adjacent pair of (non-FREE) cells: count the marked
cells and list the unmarked values, first cell first. -/
def pairCandidate (a b : BingoCell) : Candidate :=
  { mc := (if a.marked then 1 else 0) + (if b.marked then 1 else 0)
  , miss := (if a.marked then [] else [a.value.toNumber]) ++
      (if b.marked then [] else [b.value.toNumber]) }

/-- All horizontally adjacent pairs in row-major order, skipping pairs that
touch a FREE cell (the Dikit scan). -/
def dikitCandidates (card : BingoCard) : List Candidate :=
  (List.finRange 5).flatMap fun r =>
    (List.finRange 4).filterMap fun c =>
      let a := card.cells r c.castSucc
      let b := card.cells r c.succ
      if a.value = CellValue.free ∨ b.value = CellValue.free then none
      else some (pairCandidate a b)

/-- All vertically adjacent pairs in row-major order, skipping pairs that
touch a FREE cell (the Patong scan). -/
def patongCandidates (card : BingoCard) : List Candidate :=
  (List.finRange 4).flatMap fun r =>
    (List.finRange 5).filterMap fun c =>
      let a := card.cells r.castSucc c
      let b := card.cells r.succ c
      if a.value = CellValue.free ∨ b.value = CellValue.free then none
      else some (pairCandidate a b)

/-- Candidate for a full line of cells (row, column or diagonal): marked
cells count (FREE counts when marked) and the unmarked non-FREE values. -/
def lineCandidate (cells : List BingoCell) : Candidate :=
  { mc := (cells.filter (·.marked)).length
  , miss := cells.filterMap fun cell =>
      if cell.marked then none
      else if cell.value = CellValue.free then none
      else some cell.value.toNumber }

/-- The cells of row `r` in column order. -/
def rowCells (card : BingoCard) (r : Fin 5) : List BingoCell :=
  (List.finRange 5).map fun c => card.cells r c

/-- The cells of column `c` in row order. -/
def colCells (card : BingoCard) (c : Fin 5) : List BingoCell :=
  (List.finRange 5).map fun r => card.cells r c

/-- The main diagonal (top-left to bottom-right). -/
def mainDiagCells (card : BingoCard) : List BingoCell :=
  (List.finRange 5).map fun i => card.cells i i

/-- The anti-diagonal (top-right to bottom-left). -/
def antiDiagCells (card : BingoCard) : List BingoCell :=
  (List.finRange 5).map fun i => card.cells i i.rev

/-- The five row candidates of the Horizontal Line scan. -/
def hLineCandidates (card : BingoCard) : List Candidate :=
  (List.finRange 5).map fun r => lineCandidate (rowCells card r)

/-- The five column candidates of the Vertical Line scan. -/
def vLineCandidates (card : BingoCard) : List Candidate :=
  (List.finRange 5).map fun c => lineCandidate (colCells card c)

/-- Append an element to an insertion-ordered duplicate-free list unless it
is already present (the behavior of adding to a JS `Set`). -/
def insertNoDup (l : List Int) (x : Int) : List Int :=
  if x ∈ l then l else l ++ [x]

/-- Best-so-far loop of the special-name `getWinningPaths` branches:
candidates with no marked cell are skipped; a strictly better candidate
resets the collected paths; a candidate tied with the best contributes its
missing values as one path when they are nonempty. -/
def bestPathsLoop : List Candidate → Nat → List (List Int) → List (List Int)
  | [], _, paths => paths
  | x :: rest, best, paths =>
    if 0 < x.mc then
      let best' := if best < x.mc then x.mc else best
      let paths' := if best < x.mc then [] else paths
      let paths'' :=
        if x.mc = best' then
          if x.miss.isEmpty then paths' else paths' ++ [x.miss]
        else paths'
      bestPathsLoop rest best' paths''
    else bestPathsLoop rest best paths

/-- Best-so-far loop of the special-name `getMissingNumbers` branches: as
`bestPathsLoop`, but tied candidates pour their missing values into one
insertion-ordered duplicate-free aggregate. -/
def bestMissingLoop : List Candidate → Nat → List Int → List Int
  | [], _, acc => acc
  | x :: rest, best, acc =>
    if 0 < x.mc then
      let best' := if best < x.mc then x.mc else best
      let acc' := if best < x.mc then [] else acc
      let acc'' := if x.mc = best' then x.miss.foldl insertNoDup acc' else acc'
      bestMissingLoop rest best' acc''
    else bestMissingLoop rest best acc

/-- Diagonal Line branch of `getWinningPaths`: compare the two diagonals and
report each diagonal that attains the (positive) better marked count and
still has missing cells. -/
def diagPaths (card : BingoCard) : List (List Int) :=
  let m := lineCandidate (mainDiagCells card)
  let a := lineCandidate (antiDiagCells card)
  let best := max m.mc a.mc
  if 0 < best then
    (if m.mc = best ∧ ¬ m.miss.isEmpty then [m.miss] else []) ++
      (if a.mc = best ∧ ¬ a.miss.isEmpty then [a.miss] else [])
  else []

/-- Diagonal Line branch of `getMissingNumbers`: aggregate the missing values
of each diagonal attaining the (positive) better marked count. -/
def diagMissing (card : BingoCard) : List Int :=
  let m := lineCandidate (mainDiagCells card)
  let a := lineCandidate (antiDiagCells card)
  let best := max m.mc a.mc
  if 0 < best then
    let s := if m.mc = best then m.miss.foldl insertNoDup [] else []
    if a.mc = best then a.miss.foldl insertNoDup s else s
  else []

/-- Row-major list of the values of required (`grid r c = true`) cells that
are unmarked and not FREE: the single standard-pattern missing list, shared
by the standard branches of `getMissingNumbers` and `getWinningPaths`. -/
def standardMissing (card : BingoCard) (pattern : WinningPattern) : List Int :=
  (List.finRange 5).flatMap fun r =>
    (List.finRange 5).filterMap fun c =>
      if pattern.grid r c ∧ ¬ (card.cells r c).marked then
        match (card.cells r c).value with
        | CellValue.free => none
        | CellValue.num n => some n
      else none

/-- Is the pattern satisfied on the card?  Each special name has positional
semantics on the card only; any other pattern requires every `true` grid
cell to be marked. -/
def checkPattern (card : BingoCard) (pattern : WinningPattern) : Bool :=
  if pattern.name = "Dikit" then
    (List.finRange 5).any fun r => (List.finRange 4).any fun c =>
      let a := card.cells r c.castSucc
      let b := card.cells r c.succ
      if a.value = CellValue.free ∨ b.value = CellValue.free then false
      else a.marked && b.marked
  else if pattern.name = "Patong" then
    (List.finRange 4).any fun r => (List.finRange 5).any fun c =>
      let a := card.cells r.castSucc c
      let b := card.cells r.succ c
      if a.value = CellValue.free ∨ b.value = CellValue.free then false
      else a.marked && b.marked
  else if pattern.name = "Horizontal Line" then
    (List.finRange 5).any fun r => (rowCells card r).all (·.marked)
  else if pattern.name = "Vertical Line" then
    (List.finRange 5).any fun c => (colCells card c).all (·.marked)
  else if pattern.name = "Diagonal Line" then
    (mainDiagCells card).all (·.marked) || (antiDiagCells card).all (·.marked)
  else
    (List.finRange 5).all fun r => (List.finRange 5).all fun c =>
      !(pattern.grid r c) || (card.cells r c).marked

/-- Numbers needed to complete the pattern: the aggregated missing values of
the best candidates for a special name, the single standard missing list
otherwise. -/
def getMissingNumbers (card : BingoCard) (pattern : WinningPattern) : List Int :=
  if pattern.name = "Dikit" then bestMissingLoop (dikitCandidates card) 0 []
  else if pattern.name = "Patong" then bestMissingLoop (patongCandidates card) 0 []
  else if pattern.name = "Horizontal Line" then bestMissingLoop (hLineCandidates card) 0 []
  else if pattern.name = "Vertical Line" then bestMissingLoop (vLineCandidates card) 0 []
  else if pattern.name = "Diagonal Line" then diagMissing card
  else standardMissing card pattern

/-- One number away from winning, judged on the aggregated missing list. -/
def isOnPot (card : BingoCard) (pattern : WinningPattern) : Bool :=
  (getMissingNumbers card pattern).length == 1

/-- All individual winning paths: one per best candidate for a special name;
at most the single standard missing list otherwise. -/
def getWinningPaths (card : BingoCard) (pattern : WinningPattern) :
    List (List Int) :=
  if pattern.name = "Dikit" then bestPathsLoop (dikitCandidates card) 0 []
  else if pattern.name = "Patong" then bestPathsLoop (patongCandidates card) 0 []
  else if pattern.name = "Horizontal Line" then bestPathsLoop (hLineCandidates card) 0 []
  else if pattern.name = "Vertical Line" then bestPathsLoop (vLineCandidates card) 0 []
  else if pattern.name = "Diagonal Line" then diagPaths card
  else
    let missing := standardMissing card pattern
    if 0 < missing.length then [missing] else []

/-! ## Waiting-number analyzer -/

/-- One analysis record: completion state and progress of a (card, pattern)
pair, or of one specific winning path of it. -/
structure WaitingNumberAnalysis where
  cardId : String
  patternId : String
  patternName : String
  isWinner : Bool
  isOnPot : Bool
  missingNumbers : List Int
  totalRequired : Int
  totalMarked : Int
  pathIndex : Option Nat
deriving DecidableEq, Repr

/-- Game-level analysis: all records, the on-pot and winner records, and the
deduplicated ascending list of numbers to watch. -/
structure GameAnalysis where
  cardAnalyses : List WaitingNumberAnalysis
  potCards : List WaitingNumberAnalysis
  winningCards : List WaitingNumberAnalysis
  nextNumbersToWatch : List Int
deriving DecidableEq, Repr

/-- Number of `true` cells of the pattern grid. -/
def gridTrueCount (pattern : WinningPattern) : Nat :=
  ((List.finRange 5).flatMap fun r =>
    (List.finRange 5).filter fun c => pattern.grid r c).length

/-- Card-level analysis of one (card, pattern) pair.  The running
`totalRequired` starts at 2 (the Dikit/Patong value); the branch for all
other patterns adds the number of required grid cells to that start value
without resetting it. -/
def analyzeCardForPattern (card : BingoCard) (pattern : WinningPattern) :
    WaitingNumberAnalysis :=
  let isWinner := checkPattern card pattern
  let missing := getMissingNumbers card pattern
  let onPot := isOnPot card pattern
  let totalRequired : Int := 2
  if pattern.name = "Dikit" ∨ pattern.name = "Patong" then
    let totalMarked : Int :=
      if missing.length = 0 then 2 else if missing.length = 1 then 1 else 1
    { cardId := card.id, patternId := pattern.id, patternName := pattern.name
    , isWinner := isWinner, isOnPot := onPot, missingNumbers := missing
    , totalRequired := totalRequired, totalMarked := totalMarked
    , pathIndex := none }
  else
    let totalRequired : Int := totalRequired + (gridTrueCount pattern : Int)
    let totalMarked : Int := totalRequired - (missing.length : Int)
    { cardId := card.id, patternId := pattern.id, patternName := pattern.name
    , isWinner := isWinner, isOnPot := onPot, missingNumbers := missing
    , totalRequired := totalRequired, totalMarked := totalMarked
    , pathIndex := none }

/-- Required-cell total used for one path record: 5 for the three line
names, the grid cardinality for patterns other than Dikit/Patong, and the
starting value 2 for Dikit/Patong. -/
def perPathTotalRequired (pattern : WinningPattern) : Int :=
  if pattern.name = "Horizontal Line" ∨ pattern.name = "Vertical Line" ∨
      pattern.name = "Diagonal Line" then 5
  else if pattern.name ≠ "Dikit" ∧ pattern.name ≠ "Patong" then
    (gridTrueCount pattern : Int)
  else 2

/-- Per-path records emitted for one non-winning (card, pattern) pair: one
record per winning path with nonempty missing numbers and positive computed
progress, tagged with its index when several paths tie. -/
def pathRecords (card : BingoCard) (pattern : WinningPattern) :
    List WaitingNumberAnalysis :=
  let paths := getWinningPaths card pattern
  paths.enum.filterMap fun p =>
    if p.2.length = 0 then none
    else
      let totalRequired := perPathTotalRequired pattern
      let totalMarked := totalRequired - (p.2.length : Int)
      if 0 < totalMarked then
        some { cardId := card.id, patternId := pattern.id
             , patternName := pattern.name
             , isWinner := false, isOnPot := p.2.length = 1
             , missingNumbers := p.2
             , totalRequired := totalRequired, totalMarked := totalMarked
             , pathIndex := if 1 < paths.length then some p.1 else none }
      else none

/-- Ascending insertion sort of the numbers-to-watch aggregate. -/
def sortAsc : List Int → List Int
  | [] => []
  | x :: rest => insertAsc x (sortAsc rest)
where
  insertAsc (x : Int) : List Int → List Int
    | [] => [x]
    | y :: ys => if x ≤ y then x :: y :: ys else y :: insertAsc x ys

/-- Analyze every card against every pattern: a pattern already satisfied on
a card contributes its card-level record to the analyses and winners; any
other (card, pattern) pair contributes its per-path records, the on-pot ones
also to the pot list and their missing numbers to the watch aggregate. -/
def analyzeGame (cards : List BingoCard) (patterns : List WinningPattern) :
    GameAnalysis :=
  let chunks := cards.flatMap fun card => patterns.map fun pattern =>
    if checkPattern card pattern then
      let a := analyzeCardForPattern card pattern
      ([a], ([] : List WaitingNumberAnalysis), [a], ([] : List Int))
    else
      let recs := pathRecords card pattern
      (recs, recs.filter (·.isOnPot), ([] : List WaitingNumberAnalysis),
        recs.flatMap (·.missingNumbers))
  { cardAnalyses := chunks.flatMap (·.1)
  , potCards := chunks.flatMap (·.2.1)
  , winningCards := chunks.flatMap (·.2.2.1)
  , nextNumbersToWatch := sortAsc ((chunks.flatMap (·.2.2.2)).foldl insertNoDup []) }

/-! ## Concrete fixtures

Concrete cards and patterns used to witness the general theorems and to
exhibit counterexamples.  `testCells marks` places the FREE cell at the
center and the value `5*r + c + 1` everywhere else, marking exactly the
listed positions. -/

/-- Cell grid with FREE center and value `5*r + c + 1` elsewhere; exactly
the listed positions are marked. -/
def testCells (marks : List (Nat × Nat)) : Fin 5 → Fin 5 → BingoCell :=
  fun r c =>
    if r.val = 2 ∧ c.val = 2 then
      { column := Col.N, value := CellValue.free, marked := (2, 2) ∈ marks }
    else
      { column := Col.B, value := CellValue.num (r.val * 5 + c.val + 1)
      , marked := (r.val, c.val) ∈ marks }

/-- Card with two tied Dikit pairs: only the cells holding 1 and 6 are
marked (plus the FREE center). -/
def tiedPairsCard : BingoCard :=
  { id := "tied", name := none
  , cells := testCells [(0, 0), (1, 0), (2, 2)], createdAt := 0 }

/-- A pattern named Dikit (its grid is irrelevant to the matcher). -/
def dikitPat : WinningPattern :=
  { id := "p-dikit", name := "Dikit", grid := fun _ _ => false, createdAt := 0 }

/-- A standard pattern requiring the single cell (0, 0). -/
def singleCellPat : WinningPattern :=
  { id := "p-single", name := "Single Cell"
  , grid := fun r c => r.val = 0 ∧ c.val = 0, createdAt := 0 }

/-- The built-in Horizontal Line pattern with its example first-row grid. -/
def hLinePat : WinningPattern :=
  { id := "p-hline", name := "Horizontal Line"
  , grid := fun r _ => r.val = 0, createdAt := 0 }

/-- Card whose cell (0, 0) holds the placeholder value 0 and is unmarked. -/
def placeholderCard : BingoCard :=
  { id := "ph", name := none
  , cells := fun r c =>
      if r.val = 2 ∧ c.val = 2 then
        { column := Col.N, value := CellValue.free, marked := true }
      else if r.val = 0 ∧ c.val = 0 then
        { column := Col.B, value := CellValue.num 0, marked := false }
      else
        { column := Col.B, value := CellValue.num (r.val * 5 + c.val + 1)
        , marked := false }
  , createdAt := 0 }

/-- An unmarked card with FREE center (no cell marked at all). -/
def blankCard : BingoCard :=
  { id := "blank", name := none, cells := testCells [], createdAt := 0 }

/-- A fresh session with numbers 1 and 2 already called. -/
def sampleSession : GameSession :=
  { activeCardIds := ["tied"], activePatternIds := ["p-dikit"]
  , calledNumbers := [1, 2], sessionStartTime := 0, isActive := true }

/-! ## C6 — applyCalledNumbersToCards marks called values -/

/-- C6 counterexample: with called numbers `[0]`, the cell holding the
placeholder value 0 stays unmarked although its value occurs in the
called-number list, so "a cell is marked iff its value is FREE or its value
is in the called-number list" fails at this input. -/
theorem applyCalledNumbers_zero_value_cex :
    (0 : Int) ∈ ([0] : List Int) ∧
    (((applyCalledNumbersToCards [placeholderCard] [0]).getD 0 dummyCard).cells 0 0).value
      = CellValue.num 0 ∧
    (((applyCalledNumbersToCards [placeholderCard] [0]).getD 0 dummyCard).cells 0 0).marked
      = false := by
  decide

/-- C6 (amended): `applyCalledNumbersToCards` returns, position for
position, cards with identical id, name, creation time, cell values and
cell columns, in which a cell is marked iff its value is FREE or its value
is a number other than the placeholder 0 occurring in the called-number
list.  (The inputs are plain values of a pure function, so they are left
untouched.) -/
theorem applyCalledNumbers_marked_iff (cards : List BingoCard) (calledNumbers : List Int) :
    List.Forall₂ (fun res orig =>
      res.id = orig.id ∧ res.name = orig.name ∧ res.createdAt = orig.createdAt ∧
      ∀ r c : Fin 5,
        (res.cells r c).value = (orig.cells r c).value ∧
        (res.cells r c).column = (orig.cells r c).column ∧
        ((res.cells r c).marked = true ↔
          (orig.cells r c).value = CellValue.free ∨
          ∃ v : Int, (orig.cells r c).value = CellValue.num v ∧ v ≠ 0 ∧ v ∈ calledNumbers))
      (applyCalledNumbersToCards cards calledNumbers) cards := by
  unfold applyCalledNumbersToCards
  rw [List.forall₂_map_left_iff]
  rw [List.forall₂_same]
  intro card _
  refine ⟨rfl, rfl, rfl, fun r c => ⟨rfl, rfl, ?_⟩⟩
  rcases hv : (card.cells r c).value with _ | n
  · simp [hv]
  · by_cases h0 : n = 0
    · subst h0
      simp [hv]
    · simp only [hv]
      rw [if_neg (by simp), if_neg (by simp [h0])]
      simp [cellIsCalled, h0, List.elem_iff]

/-- C6 witness: the amended theorem applied to a concrete card list and
called-number list. -/
theorem applyCalledNumbers_marked_iff_witness :
    List.Forall₂ (fun res orig =>
      res.id = orig.id ∧ res.name = orig.name ∧ res.createdAt = orig.createdAt ∧
      ∀ r c : Fin 5,
        (res.cells r c).value = (orig.cells r c).value ∧
        (res.cells r c).column = (orig.cells r c).column ∧
        ((res.cells r c).marked = true ↔
          (orig.cells r c).value = CellValue.free ∨
          ∃ v : Int, (orig.cells r c).value = CellValue.num v ∧ v ≠ 0 ∧
            v ∈ ([1, 7] : List Int)))
      (applyCalledNumbersToCards [tiedPairsCard] [1, 7]) [tiedPairsCard] :=
  applyCalledNumbers_marked_iff [tiedPairsCard] [1, 7]

/-! ## C7 — idempotence of applyCalledNumbersToCards -/

/-- C7: applying the same called-number list twice yields the very same
cards (hence, in particular, the same marked state cell for cell) as
applying it once. -/
theorem applyCalledNumbers_idempotent (cards : List BingoCard) (nums : List Int) :
    applyCalledNumbersToCards (applyCalledNumbersToCards cards nums) nums =
      applyCalledNumbersToCards cards nums := by
  unfold applyCalledNumbersToCards
  rw [List.map_map]
  rfl

/-! ## C8 — markNumber marks exactly the matching cells -/

/-- C8: `markNumber card n` marks every cell whose value equals `n`, keeps
the marked flag, value and column of every other cell, keeps the card's
other fields, and is the identity when `n` appears nowhere on the card. -/
theorem markNumber_spec (card : BingoCard) (n : Int) :
    (∀ r c : Fin 5,
      ((markNumber card n).cells r c).marked =
        (if (card.cells r c).value = CellValue.num n then true
          else (card.cells r c).marked) ∧
      ((markNumber card n).cells r c).value = (card.cells r c).value ∧
      ((markNumber card n).cells r c).column = (card.cells r c).column) ∧
    (markNumber card n).id = card.id ∧
    (markNumber card n).name = card.name ∧
    (markNumber card n).createdAt = card.createdAt ∧
    ((∀ r c : Fin 5, (card.cells r c).value ≠ CellValue.num n) →
      markNumber card n = card) := by
  refine ⟨fun r c => ?_, rfl, rfl, rfl, fun hnone => ?_⟩
  · unfold markNumber
    by_cases hv : (card.cells r c).value = CellValue.num n <;> simp [hv]
  · have hcells : (fun r c =>
        let cell := card.cells r c
        if cell.value = CellValue.num n then { cell with marked := true } else cell)
        = card.cells := by
      funext r c
      show (if (card.cells r c).value = CellValue.num n
        then { card.cells r c with marked := true } else card.cells r c) = card.cells r c
      rw [if_neg (hnone r c)]
    unfold markNumber
    rw [hcells]

/-- C8 witness: the number 99 appears nowhere on the blank card, and
marking it returns the card unchanged. -/
theorem markNumber_spec_witness :
    (∀ r c : Fin 5, (blankCard.cells r c).value ≠ CellValue.num 99) ∧
    markNumber blankCard 99 = blankCard :=
  ⟨by decide, (markNumber_spec blankCard 99).2.2.2.2 (by decide)⟩

/-! ## C10 — addCalledNumber validity and atomicity -/

/-- C10: `addCalledNumber` fails exactly when the number is outside 1–75 or
already called, and otherwise returns the session with the number appended
to the call history and every other field unchanged.  Failure returns the
error without touching the session value (the function is pure). -/
theorem addCalledNumber_spec (s : GameSession) (n : Int) :
    ((∃ e, addCalledNumber s n = Except.error e) ↔
      (n < 1 ∨ 75 < n ∨ n ∈ s.calledNumbers)) ∧
    (¬ (n < 1 ∨ 75 < n ∨ n ∈ s.calledNumbers) →
      addCalledNumber s n =
        Except.ok { s with calledNumbers := s.calledNumbers ++ [n] }) := by
  unfold addCalledNumber isValidBingoNumber
  by_cases h1 : (1 : Int) ≤ n ∧ n ≤ 75
  · by_cases h2 : n ∈ s.calledNumbers
    · rw [if_neg (by simp [h1.1, h1.2]), if_pos h2]
      exact ⟨by simp [h2], fun hc => absurd (Or.inr (Or.inr h2)) hc⟩
    · rw [if_neg (by simp [h1.1, h1.2]), if_neg h2]
      constructor
      · simp only [iff_false_intro h2, or_false]
        constructor
        · rintro ⟨e, he⟩
          cases he
        · intro hc
          rcases hc with hc | hc <;> omega
      · intro _
        rfl
  · rw [if_pos (by simpa using fun hl hr => h1 ⟨hl, hr⟩)]
    refine ⟨⟨fun _ => ?_, fun _ => ⟨"Invalid Bingo number", rfl⟩⟩, fun hc => ?_⟩
    · have hrange : n < 1 ∨ 75 < n := by omega
      tauto
    · push_neg at hc
      exact absurd ⟨hc.1, hc.2.1⟩ h1

/-- C10 witness: adding 5 to the sample session succeeds and appends it. -/
theorem addCalledNumber_spec_witness :
    ¬ ((5 : Int) < 1 ∨ 75 < (5 : Int) ∨ (5 : Int) ∈ sampleSession.calledNumbers) ∧
    addCalledNumber sampleSession 5 =
      Except.ok { sampleSession with
        calledNumbers := sampleSession.calledNumbers ++ [5] } :=
  ⟨by decide, (addCalledNumber_spec sampleSession 5).2 (by decide)⟩

/-! ## C9 — special-name behavior never reads the grid -/

/-- C9: for two patterns sharing one of the five special names, the matcher
functions `checkPattern`, `getMissingNumbers` and `getWinningPaths` return
identical results on every card, whatever the two grids are. -/
theorem specialPattern_grid_irrelevant (card : BingoCard) (p q : WinningPattern)
    (hname : p.name = q.name) (hspec : p.name ∈ specialNames) :
    checkPattern card p = checkPattern card q ∧
    getMissingNumbers card p = getMissingNumbers card q ∧
    getWinningPaths card p = getWinningPaths card q := by
  simp only [specialNames, List.mem_cons, List.not_mem_nil, or_false] at hspec
  rcases hspec with h | h | h | h | h <;>
    · have hq : q.name = _ := hname.symm.trans h
      refine ⟨?_, ?_, ?_⟩ <;> simp [checkPattern, getMissingNumbers, getWinningPaths, h, hq]

/-- A second pattern named Dikit whose grid is everywhere true (deliberately
different from the grid of `dikitPat`). -/
def dikitPatFull : WinningPattern :=
  { id := "p-dikit-2", name := "Dikit", grid := fun _ _ => true, createdAt := 0 }

/-- C9 witness: the two Dikit-named patterns with different grids get
identical matcher results on the tied-pairs card. -/
theorem specialPattern_grid_irrelevant_witness :
    dikitPat.name = dikitPatFull.name ∧ dikitPat.name ∈ specialNames ∧
    (checkPattern tiedPairsCard dikitPat = checkPattern tiedPairsCard dikitPatFull ∧
     getMissingNumbers tiedPairsCard dikitPat = getMissingNumbers tiedPairsCard dikitPatFull ∧
     getWinningPaths tiedPairsCard dikitPat = getWinningPaths tiedPairsCard dikitPatFull) :=
  ⟨rfl, by decide,
    specialPattern_grid_irrelevant tiedPairsCard dikitPat dikitPatFull rfl (by decide)⟩

/-! ## Standard patterns: the single path and the win condition -/

/-- A pattern whose name is not special differs from each special name. -/
theorem notSpecial_names {pattern : WinningPattern} (h : pattern.name ∉ specialNames) :
    pattern.name ≠ "Dikit" ∧ pattern.name ≠ "Patong" ∧ pattern.name ≠ "Horizontal Line" ∧
    pattern.name ≠ "Vertical Line" ∧ pattern.name ≠ "Diagonal Line" := by
  simpa [specialNames, not_or] using h

/-- The standard missing list is empty iff every required unmarked cell is
the FREE cell. -/
theorem standardMissing_eq_nil_iff (card : BingoCard) (pattern : WinningPattern) :
    standardMissing card pattern = [] ↔
      ∀ r c : Fin 5, pattern.grid r c → ¬ (card.cells r c).marked →
        (card.cells r c).value = CellValue.free := by
  unfold standardMissing
  rw [List.eq_nil_iff_forall_not_mem]
  constructor
  · intro hnone r c hg hm
    rcases hv : (card.cells r c).value with _ | n
    · rfl
    · exfalso
      refine hnone n ?_
      simp only [List.mem_flatMap, List.mem_filterMap, List.mem_finRange]
      refine ⟨r, trivial, c, trivial, ?_⟩
      rw [if_pos ⟨hg, hm⟩, hv]
  · intro hfree x hx
    simp only [List.mem_flatMap, List.mem_filterMap, List.mem_finRange] at hx
    obtain ⟨r, -, c, -, hsome⟩ := hx
    by_cases hgm : pattern.grid r c ∧ ¬ (card.cells r c).marked
    · rw [if_pos hgm, hfree r c hgm.1 hgm.2] at hsome
      cases hsome
    · rw [if_neg hgm] at hsome
      cases hsome

/-- On a non-special name, `checkPattern` is the literal grid check: every
required cell marked. -/
theorem checkPattern_standard_iff (card : BingoCard) (pattern : WinningPattern)
    (hname : pattern.name ∉ specialNames) :
    checkPattern card pattern = true ↔
      ∀ r c : Fin 5, pattern.grid r c → (card.cells r c).marked := by
  obtain ⟨h1, h2, h3, h4, h5⟩ := notSpecial_names hname
  simp only [checkPattern, h1, h2, h3, h4, h5, if_false, List.all_eq_true, List.mem_finRange,
    Bool.or_eq_true, Bool.not_eq_true', if_neg, true_implies]
  refine ⟨fun h r c hg => ?_, fun h r c => ?_⟩
  · rcases h r c with h' | h'
    · rw [hg] at h'
      cases h'
    · exact h'
  · by_cases hg : pattern.grid r c = true
    · exact Or.inr (h r c hg)
    · exact Or.inl (by simpa using hg)

/-- C3: for a standard pattern the only candidate path is the row-major
list of required, unmarked, non-FREE cell values (`standardMissing`);
`getWinningPaths` returns exactly that one path when it is nonempty and no
path when it is empty, and in the empty case a data-model card (every FREE
cell marked) has won the pattern with zero missing numbers. -/
theorem standard_paths_spec (card : BingoCard) (pattern : WinningPattern)
    (hname : pattern.name ∉ specialNames)
    (hfree : ∀ r c : Fin 5, (card.cells r c).value = CellValue.free →
      (card.cells r c).marked = true) :
    getWinningPaths card pattern =
      (if standardMissing card pattern = [] then []
        else [standardMissing card pattern]) ∧
    (standardMissing card pattern = [] →
      checkPattern card pattern = true ∧ getMissingNumbers card pattern = []) := by
  obtain ⟨h1, h2, h3, h4, h5⟩ := notSpecial_names hname
  constructor
  · simp only [getWinningPaths, h1, h2, h3, h4, h5, if_false]
    rcases hsm : standardMissing card pattern with _ | ⟨x, xs⟩ <;> simp
  · intro hnil
    have hmiss := (standardMissing_eq_nil_iff card pattern).1 hnil
    constructor
    · rw [checkPattern_standard_iff card pattern hname]
      intro r c hg
      by_cases hm : (card.cells r c).marked
      · exact hm
      · exact hfree r c (hmiss r c hg hm)
    · simp only [getMissingNumbers, h1, h2, h3, h4, h5, if_false]
      exact hnil

/-- C3 witness: the single-cell pattern on the tied-pairs card. -/
theorem standard_paths_spec_witness :
    singleCellPat.name ∉ specialNames ∧
    (∀ r c : Fin 5, (tiedPairsCard.cells r c).value = CellValue.free →
      (tiedPairsCard.cells r c).marked = true) ∧
    (getWinningPaths tiedPairsCard singleCellPat =
      (if standardMissing tiedPairsCard singleCellPat = [] then []
        else [standardMissing tiedPairsCard singleCellPat]) ∧
     (standardMissing tiedPairsCard singleCellPat = [] →
       checkPattern tiedPairsCard singleCellPat = true ∧
       getMissingNumbers tiedPairsCard singleCellPat = [])) :=
  ⟨by decide, by decide, standard_paths_spec tiedPairsCard singleCellPat (by decide) (by decide)⟩

/-- C4: on a card with FREE center cell that is marked, and FREE nowhere
else, a standard pattern is satisfied iff its missing-number list is
empty. -/
theorem standard_won_iff_missing_empty (card : BingoCard) (pattern : WinningPattern)
    (hname : pattern.name ∉ specialNames)
    (_hcv : (card.cells 2 2).value = CellValue.free)
    (hcm : (card.cells 2 2).marked = true)
    (honly : ∀ r c : Fin 5, (card.cells r c).value = CellValue.free → r = 2 ∧ c = 2) :
    checkPattern card pattern = true ↔ getMissingNumbers card pattern = [] := by
  obtain ⟨h1, h2, h3, h4, h5⟩ := notSpecial_names hname
  have hgm : getMissingNumbers card pattern = standardMissing card pattern := by
    simp only [getMissingNumbers, h1, h2, h3, h4, h5, if_false]
  rw [hgm, checkPattern_standard_iff card pattern hname, standardMissing_eq_nil_iff]
  constructor
  · intro h r c hg hm
    exact absurd (h r c hg) hm
  · intro h r c hg
    by_cases hm : (card.cells r c).marked
    · exact hm
    · obtain ⟨hr, hc⟩ := honly r c (h r c hg hm)
      subst hr
      subst hc
      exact absurd hcm hm

/-- C4 witness: the single-cell pattern on the tied-pairs card, whose FREE
center is marked. -/
theorem standard_won_iff_missing_empty_witness :
    singleCellPat.name ∉ specialNames ∧
    (tiedPairsCard.cells 2 2).value = CellValue.free ∧
    (tiedPairsCard.cells 2 2).marked = true ∧
    (∀ r c : Fin 5, (tiedPairsCard.cells r c).value = CellValue.free → r = 2 ∧ c = 2) ∧
    (checkPattern tiedPairsCard singleCellPat = true ↔
      getMissingNumbers tiedPairsCard singleCellPat = []) :=
  ⟨by decide, by decide, by decide, by decide,
    standard_won_iff_missing_empty tiedPairsCard singleCellPat
      (by decide) (by decide) (by decide) (by decide)⟩

/-! ## Dikit and Patong: pair scans and tied best paths -/

/-- The best (maximal) marked count over a candidate list, 0 when none. -/
def bestMarkedCount (cands : List Candidate) : Nat :=
  (cands.map (·.mc)).foldr max 0

/-- Unfolding of `bestMarkedCount` on a cons. -/
theorem bestMarkedCount_cons (x : Candidate) (rest : List Candidate) :
    bestMarkedCount (x :: rest) = max x.mc (bestMarkedCount rest) := rfl

/-- Every candidate's marked count is at most the best one. -/
theorem le_bestMarkedCount {cands : List Candidate} {x : Candidate} (hx : x ∈ cands) :
    x.mc ≤ bestMarkedCount cands := by
  induction cands with
  | nil => cases hx
  | cons y ys ih =>
    rw [bestMarkedCount_cons]
    rcases List.mem_cons.mp hx with rfl | hx'
    · exact le_max_left _ _
    · exact le_trans (ih hx') (le_max_right _ _)

/-- An upper bound on all marked counts bounds the best one. -/
theorem bestMarkedCount_le {cands : List Candidate} {n : Nat}
    (h : ∀ x ∈ cands, x.mc ≤ n) : bestMarkedCount cands ≤ n := by
  induction cands with
  | nil => exact Nat.zero_le n
  | cons y ys ih =>
    rw [bestMarkedCount_cons]
    exact max_le (h y (List.mem_cons_self y ys)) (ih fun x hx => h x (List.mem_cons_of_mem _ hx))

/-- A positive best marked count is attained by some candidate. -/
theorem bestMarkedCount_attained {cands : List Candidate}
    (h : bestMarkedCount cands ≠ 0) :
    ∃ x ∈ cands, x.mc = bestMarkedCount cands := by
  induction cands with
  | nil => exact absurd rfl h
  | cons y ys ih =>
    rw [bestMarkedCount_cons] at h ⊢
    by_cases hc : bestMarkedCount ys ≤ y.mc
    · exact ⟨y, List.mem_cons_self y ys, by rw [max_eq_left hc]⟩
    · push_neg at hc
      have hmax : max y.mc (bestMarkedCount ys) = bestMarkedCount ys :=
        max_eq_right (le_of_lt hc)
      rw [hmax] at h ⊢
      obtain ⟨x, hx, hxe⟩ := ih h
      exact ⟨x, List.mem_cons_of_mem _ hx, hxe⟩

/-- The sequential best-tracking loop collects, in scan order, exactly the
nonempty missing lists of the candidates attaining the best positive marked
count (when that best beats the running best `b`), and otherwise appends to
the accumulator the candidates tied with `b`. -/
theorem bestPathsLoop_eq (l : List Candidate) :
    ∀ (b : Nat) (acc : List (List Int)),
      bestPathsLoop l b acc =
        if b < bestMarkedCount l then
          (l.filter fun x => x.mc = bestMarkedCount l ∧ x.miss ≠ []).map (·.miss)
        else
          acc ++ (l.filter fun x => 0 < x.mc ∧ x.mc = b ∧ x.miss ≠ []).map (·.miss) := by
  induction l with
  | nil =>
    intro b acc
    simp [bestPathsLoop, bestMarkedCount]
  | cons x rest ih =>
    intro b acc
    by_cases h0 : 0 < x.mc
    · by_cases hlt : b < x.mc
      · -- strictly better candidate: the loop resets
        have hM : b < bestMarkedCount (x :: rest) :=
          lt_of_lt_of_le hlt (by rw [bestMarkedCount_cons]; exact le_max_left _ _)
        rw [if_pos hM]
        have hLHS : bestPathsLoop (x :: rest) b acc =
            bestPathsLoop rest x.mc (if x.miss.isEmpty then [] else [x.miss]) := by
          simp only [bestPathsLoop, if_pos h0, if_pos hlt, ite_self, if_pos rfl, ite_true,
            List.nil_append]
        rw [hLHS, ih]
        by_cases h2 : x.mc < bestMarkedCount rest
        · rw [if_pos h2]
          have hMB : bestMarkedCount (x :: rest) = bestMarkedCount rest := by
            rw [bestMarkedCount_cons]
            exact max_eq_right (le_of_lt h2)
          rw [hMB]
          simp only [List.filter_cons]
          have hcx : ¬ (decide (x.mc = bestMarkedCount rest ∧ x.miss ≠ []) = true) := by
            simp only [decide_eq_true_eq, not_and]
            intro hx
            exact absurd hx (ne_of_lt h2)
          rw [if_neg hcx]
        · push_neg at h2
          rw [if_neg (by omega)]
          have hMB : bestMarkedCount (x :: rest) = x.mc := by
            rw [bestMarkedCount_cons]
            exact max_eq_left h2
          rw [hMB]
          have hcong : (rest.filter fun a => 0 < a.mc ∧ a.mc = x.mc ∧ a.miss ≠ []) =
              (rest.filter fun a => a.mc = x.mc ∧ a.miss ≠ []) := by
            apply List.filter_congr
            intro a _
            simp only [decide_eq_decide]
            constructor
            · rintro ⟨-, h⟩
              exact h
            · rintro ⟨he, hm⟩
              exact ⟨he ▸ h0, he, hm⟩
          rw [hcong]
          rcases hme : x.miss with _ | ⟨m, ms⟩ <;>
            simp [List.filter_cons, hme]
      · -- not better: the loop keeps the running best b
        push_neg at hlt
        have hnb : ¬ (b < x.mc) := by omega
        have hLHS : bestPathsLoop (x :: rest) b acc =
            bestPathsLoop rest b
              (if x.mc = b then (if x.miss.isEmpty then acc else acc ++ [x.miss]) else acc) := by
          simp only [bestPathsLoop, if_pos h0, if_neg hnb]
        rw [hLHS, ih]
        have hMB : bestMarkedCount (x :: rest) = max x.mc (bestMarkedCount rest) :=
          bestMarkedCount_cons x rest
        by_cases hb : b < bestMarkedCount rest
        · have hM : b < bestMarkedCount (x :: rest) := by
            rw [hMB]
            omega
          rw [if_pos hb, if_pos hM]
          have hMR : bestMarkedCount (x :: rest) = bestMarkedCount rest := by
            rw [hMB]
            omega
          rw [hMR]
          simp only [List.filter_cons]
          have hcx : ¬ (decide (x.mc = bestMarkedCount rest ∧ x.miss ≠ []) = true) := by
            simp only [decide_eq_true_eq, not_and]
            intro hx
            omega
          rw [if_neg hcx]
        · have hM : ¬ (b < bestMarkedCount (x :: rest)) := by
            rw [hMB]
            omega
          rw [if_neg hb, if_neg hM]
          by_cases heq : x.mc = b
          · have h0b : 0 < b := heq ▸ h0
            rcases hme : x.miss with _ | ⟨m, ms⟩
            · simp [List.filter_cons, hme]
            · simp [List.filter_cons, hme, heq, h0b]
          · simp [List.filter_cons, heq]
    · -- candidate with no marked cell: skipped
      have hz : x.mc = 0 := by omega
      have hLHS : bestPathsLoop (x :: rest) b acc = bestPathsLoop rest b acc := by
        simp only [bestPathsLoop, if_neg h0]
      rw [hLHS, ih]
      have hMB : bestMarkedCount (x :: rest) = bestMarkedCount rest := by
        rw [bestMarkedCount_cons, hz]
        exact Nat.zero_max _
      rw [hMB]
      by_cases hb : b < bestMarkedCount rest
      · rw [if_pos hb, if_pos hb]
        simp only [List.filter_cons]
        have hcx : ¬ (decide (x.mc = bestMarkedCount rest ∧ x.miss ≠ []) = true) := by
          simp only [decide_eq_true_eq, not_and]
          intro hx
          omega
        rw [if_neg hcx]
      · rw [if_neg hb, if_neg hb]
        simp only [List.filter_cons]
        have hcx : ¬ (decide (0 < x.mc ∧ x.mc = b ∧ x.miss ≠ []) = true) := by
          simp [hz]
        rw [if_neg hcx]



/-- A pair candidate has marked count at most 2. -/
theorem pairCandidate_mc_le (a b : BingoCell) : (pairCandidate a b).mc ≤ 2 := by
  cases ha : a.marked <;> cases hb : b.marked <;> simp [pairCandidate, ha, hb]

/-- A pair candidate's missing values and marked cells add up to 2. -/
theorem pairCandidate_miss_len (a b : BingoCell) :
    (pairCandidate a b).miss.length + (pairCandidate a b).mc = 2 := by
  cases ha : a.marked <;> cases hb : b.marked <;> simp [pairCandidate, ha, hb]

/-- A pair candidate has marked count 2 iff both cells are marked. -/
theorem pairCandidate_mc_two_iff (a b : BingoCell) :
    (pairCandidate a b).mc = 2 ↔ (a.marked ∧ b.marked) := by
  cases ha : a.marked <;> cases hb : b.marked <;> simp [pairCandidate, ha, hb]

/-- Every Dikit candidate is a pair candidate. -/
theorem mem_dikitCandidates {card : BingoCard} {x : Candidate}
    (hx : x ∈ dikitCandidates card) :
    ∃ a b, x = pairCandidate a b := by
  simp only [dikitCandidates, List.mem_flatMap, List.mem_filterMap, List.mem_finRange,
    true_and] at hx
  obtain ⟨r, c, hsome⟩ := hx
  by_cases hf : (card.cells r c.castSucc).value = CellValue.free ∨
      (card.cells r c.succ).value = CellValue.free
  · rw [if_pos hf] at hsome
    cases hsome
  · rw [if_neg hf] at hsome
    exact ⟨_, _, (Option.some_injective _ hsome).symm⟩

/-- The Dikit check succeeds iff some eligible pair has both cells marked. -/
theorem checkPattern_dikit_iff (card : BingoCard) (p : WinningPattern) (h : p.name = "Dikit") :
    checkPattern card p = true ↔ ∃ x ∈ dikitCandidates card, x.mc = 2 := by
  simp only [checkPattern, h, if_true, ite_true, List.any_eq_true, List.mem_finRange, true_and]
  simp only [dikitCandidates, List.mem_flatMap, List.mem_filterMap, List.mem_finRange, true_and]
  constructor
  · rintro ⟨r, c, hrc⟩
    by_cases hf : (card.cells r c.castSucc).value = CellValue.free ∨
        (card.cells r c.succ).value = CellValue.free
    · rw [if_pos hf] at hrc
      cases hrc
    · rw [if_neg hf] at hrc
      refine ⟨pairCandidate (card.cells r c.castSucc) (card.cells r c.succ), ⟨r, c, ?_⟩, ?_⟩
      · rw [if_neg hf]
      · rw [pairCandidate_mc_two_iff]
        simpa using hrc
  · rintro ⟨x, ⟨r, c, hsome⟩, hmc⟩
    refine ⟨r, c, ?_⟩
    by_cases hf : (card.cells r c.castSucc).value = CellValue.free ∨
        (card.cells r c.succ).value = CellValue.free
    · rw [if_pos hf] at hsome
      cases hsome
    · rw [if_neg hf] at hsome
      rw [if_neg hf]
      obtain rfl : pairCandidate (card.cells r c.castSucc) (card.cells r c.succ) = x :=
        Option.some_injective _ hsome
      have := (pairCandidate_mc_two_iff _ _).mp hmc
      simp [this.1, this.2]



/-- Every Patong candidate is a pair candidate. -/
theorem mem_patongCandidates {card : BingoCard} {x : Candidate}
    (hx : x ∈ patongCandidates card) :
    ∃ a b, x = pairCandidate a b := by
  simp only [patongCandidates, List.mem_flatMap, List.mem_filterMap, List.mem_finRange,
    true_and] at hx
  obtain ⟨r, c, hsome⟩ := hx
  by_cases hf : (card.cells r.castSucc c).value = CellValue.free ∨
      (card.cells r.succ c).value = CellValue.free
  · rw [if_pos hf] at hsome
    cases hsome
  · rw [if_neg hf] at hsome
    exact ⟨_, _, (Option.some_injective _ hsome).symm⟩

/-- The Patong check succeeds iff some eligible pair has both cells marked. -/
theorem checkPattern_patong_iff (card : BingoCard) (p : WinningPattern) (h : p.name = "Patong") :
    checkPattern card p = true ↔ ∃ x ∈ patongCandidates card, x.mc = 2 := by
  have hred : checkPattern card p = ((List.finRange 4).any fun r =>
      (List.finRange 5).any fun c =>
        if (card.cells r.castSucc c).value = CellValue.free ∨
            (card.cells r.succ c).value = CellValue.free then false
        else ((card.cells r.castSucc c).marked && (card.cells r.succ c).marked)) := by
    unfold checkPattern
    rw [h]
    rfl
  rw [hred]
  simp only [List.any_eq_true, List.mem_finRange, true_and]
  simp only [patongCandidates, List.mem_flatMap, List.mem_filterMap, List.mem_finRange, true_and]
  constructor
  · rintro ⟨r, c, hrc⟩
    by_cases hf : (card.cells r.castSucc c).value = CellValue.free ∨
        (card.cells r.succ c).value = CellValue.free
    · rw [if_pos hf] at hrc
      cases hrc
    · rw [if_neg hf] at hrc
      refine ⟨pairCandidate (card.cells r.castSucc c) (card.cells r.succ c), ⟨r, c, ?_⟩, ?_⟩
      · rw [if_neg hf]
      · rw [pairCandidate_mc_two_iff]
        simpa using hrc
  · rintro ⟨x, ⟨r, c, hsome⟩, hmc⟩
    refine ⟨r, c, ?_⟩
    by_cases hf : (card.cells r.castSucc c).value = CellValue.free ∨
        (card.cells r.succ c).value = CellValue.free
    · rw [if_pos hf] at hsome
      cases hsome
    · rw [if_neg hf] at hsome
      rw [if_neg hf]
      obtain rfl : pairCandidate (card.cells r.castSucc c) (card.cells r.succ c) = x :=
        Option.some_injective _ hsome
      have := (pairCandidate_mc_two_iff _ _).mp hmc
      simp [this.1, this.2]

/-- With all marked counts at most 2, the best equals 2 iff attained. -/
theorem best_eq_two_iff {cands : List Candidate}
    (hle : ∀ x ∈ cands, x.mc ≤ 2) :
    bestMarkedCount cands = 2 ↔ ∃ x ∈ cands, x.mc = 2 := by
  constructor
  · intro hbest
    obtain ⟨x, hx, hxe⟩ :=
      bestMarkedCount_attained (show bestMarkedCount cands ≠ 0 by omega)
    exact ⟨x, hx, by omega⟩
  · rintro ⟨x, hx, hxe⟩
    have h1 := le_bestMarkedCount hx
    have h2 := bestMarkedCount_le hle
    omega

/-- For pair candidates, when the best marked count is not 2 the loop
returns one path per candidate tied at the positive best. -/
theorem pairScan_paths {cands : List Candidate}
    (hshape : ∀ x ∈ cands, ∃ a b, x = pairCandidate a b)
    (hne : bestMarkedCount cands ≠ 2) :
    bestPathsLoop cands 0 [] =
      (cands.filter fun x => 0 < x.mc ∧ x.mc = bestMarkedCount cands).map (·.miss) := by
  rw [bestPathsLoop_eq]
  by_cases hpos : 0 < bestMarkedCount cands
  · rw [if_pos hpos]
    congr 1
    apply List.filter_congr
    intro x hx
    simp only [decide_eq_decide]
    constructor
    · rintro ⟨he, -⟩
      exact ⟨by omega, he⟩
    · rintro ⟨-, he⟩
      refine ⟨he, ?_⟩
      obtain ⟨a, b, rfl⟩ := hshape x hx
      have hlen := pairCandidate_miss_len a b
      have hle := pairCandidate_mc_le a b
      intro hemp
      rw [hemp] at hlen
      simp only [List.length_nil, Nat.zero_add] at hlen
      omega
  · rw [if_neg hpos]
    have hzero : bestMarkedCount cands = 0 := by omega
    have hF : ∀ (P : Candidate → Prop) [DecidablePred P],
        (∀ x ∈ cands, ¬ (0 < x.mc ∧ P x)) →
        (cands.filter fun x => 0 < x.mc ∧ P x) = [] := by
      intro P _ hnone
      rw [List.filter_eq_nil_iff]
      intro x hx
      simpa using hnone x hx
    have h1 : (cands.filter fun x => 0 < x.mc ∧ x.mc = 0 ∧ x.miss ≠ []) = [] := by
      rw [List.filter_eq_nil_iff]
      intro x hx
      simp only [decide_eq_true_eq, not_and]
      intro hp he
      omega
    have h2 : (cands.filter fun x => 0 < x.mc ∧ x.mc = bestMarkedCount cands) = [] := by
      rw [List.filter_eq_nil_iff]
      intro x hx
      simp only [decide_eq_true_eq, not_and]
      intro hp he
      omega
    rw [h1, h2]
    simp



/-- C2: for a pattern named Dikit (or Patong), only pairs not touching the
FREE cell are considered (they are the `dikitCandidates` and
`patongCandidates` scans); with best the maximal marked count over pairs
with positive marked count, the card wins iff best equals 2, and otherwise
the returned paths are exactly one per pair attaining that positive best,
each path being the pair's unmarked values.  In particular no path comes
from a pair with marked count 0 and all paths share the maximal count. -/
theorem dikit_patong_paths_spec (card : BingoCard) (p : WinningPattern) :
    (p.name = "Dikit" →
      ((checkPattern card p = true) ↔ bestMarkedCount (dikitCandidates card) = 2) ∧
      (bestMarkedCount (dikitCandidates card) ≠ 2 →
        getWinningPaths card p =
          ((dikitCandidates card).filter fun x =>
            0 < x.mc ∧ x.mc = bestMarkedCount (dikitCandidates card)).map (·.miss))) ∧
    (p.name = "Patong" →
      ((checkPattern card p = true) ↔ bestMarkedCount (patongCandidates card) = 2) ∧
      (bestMarkedCount (patongCandidates card) ≠ 2 →
        getWinningPaths card p =
          ((patongCandidates card).filter fun x =>
            0 < x.mc ∧ x.mc = bestMarkedCount (patongCandidates card)).map (·.miss))) := by
  constructor
  · intro h
    have hle : ∀ x ∈ dikitCandidates card, x.mc ≤ 2 := fun x hx => by
      obtain ⟨a, b, rfl⟩ := mem_dikitCandidates hx
      exact pairCandidate_mc_le a b
    refine ⟨?_, fun hne => ?_⟩
    · rw [checkPattern_dikit_iff card p h, best_eq_two_iff hle]
    · have hred : getWinningPaths card p = bestPathsLoop (dikitCandidates card) 0 [] := by
        unfold getWinningPaths
        rw [h]
        rfl
      rw [hred]
      exact pairScan_paths (fun x hx => mem_dikitCandidates hx) hne
  · intro h
    have hle : ∀ x ∈ patongCandidates card, x.mc ≤ 2 := fun x hx => by
      obtain ⟨a, b, rfl⟩ := mem_patongCandidates hx
      exact pairCandidate_mc_le a b
    refine ⟨?_, fun hne => ?_⟩
    · rw [checkPattern_patong_iff card p h, best_eq_two_iff hle]
    · have hred : getWinningPaths card p = bestPathsLoop (patongCandidates card) 0 [] := by
        unfold getWinningPaths
        rw [h]
        rfl
      rw [hred]
      exact pairScan_paths (fun x hx => mem_patongCandidates hx) hne

/-- C2 witness: the Dikit pattern on the tied-pairs card. -/
theorem dikit_patong_paths_spec_witness :
    dikitPat.name = "Dikit" ∧
    (((checkPattern tiedPairsCard dikitPat = true) ↔
        bestMarkedCount (dikitCandidates tiedPairsCard) = 2) ∧
      (bestMarkedCount (dikitCandidates tiedPairsCard) ≠ 2 →
        getWinningPaths tiedPairsCard dikitPat =
          ((dikitCandidates tiedPairsCard).filter fun x =>
            0 < x.mc ∧ x.mc = bestMarkedCount (dikitCandidates tiedPairsCard)).map (·.miss))) :=
  ⟨rfl, (dikit_patong_paths_spec tiedPairsCard dikitPat).1 rfl⟩

/-! ## C5 — the two on-pot notions -/

/-- C5: `isOnPot` holds iff the aggregated missing-number list has exactly
one element; and the aggregate disagrees with the analyzer's per-path flag
on the tied-pairs card with the Dikit pattern: the aggregate merges two tied
one-missing pairs into a two-element list (so `isOnPot` is false) while
every record `analyzeGame` emits for that card and pattern is on pot with a
single missing number. -/
theorem isOnPot_scope :
    (∀ (card : BingoCard) (pattern : WinningPattern),
      isOnPot card pattern = true ↔ (getMissingNumbers card pattern).length = 1) ∧
    isOnPot tiedPairsCard dikitPat = false ∧
    (getMissingNumbers tiedPairsCard dikitPat).length = 2 ∧
    (analyzeGame [tiedPairsCard] [dikitPat]).cardAnalyses.length = 2 ∧
    ((analyzeGame [tiedPairsCard] [dikitPat]).cardAnalyses.all fun a =>
      a.isOnPot && a.missingNumbers.length == 1) = true := by
  refine ⟨fun card pattern => ?_, by decide, by decide, by decide, by decide⟩
  simp [isOnPot]

/-! ## C1 — totalRequired and totalMarked of analysis records -/

/-- C1 counterexample: `analyzeCardForPattern` keeps the Dikit/Patong start
value 2 in `totalRequired` while counting a standard grid, so the one-cell
standard pattern reports 3 (not its grid cardinality 1), and the built-in
Horizontal Line pattern reports 7 (not 5). -/
theorem analyzeCard_totals_cex :
    gridTrueCount singleCellPat = 1 ∧
    singleCellPat.name ∉ specialNames ∧
    (analyzeCardForPattern blankCard singleCellPat).totalRequired = 3 ∧
    hLinePat.name = "Horizontal Line" ∧
    (analyzeCardForPattern blankCard hLinePat).totalRequired = 7 := by
  decide

/-- The per-path required total, written as the claim's category rule. -/
theorem perPathTotalRequired_cases (pattern : WinningPattern) :
    perPathTotalRequired pattern =
      (if pattern.name = "Horizontal Line" ∨ pattern.name = "Vertical Line" ∨
          pattern.name = "Diagonal Line" then 5
        else if pattern.name = "Dikit" ∨ pattern.name = "Patong" then 2
        else (gridTrueCount pattern : Int)) := by
  unfold perPathTotalRequired
  by_cases hl : pattern.name = "Horizontal Line" ∨ pattern.name = "Vertical Line" ∨
      pattern.name = "Diagonal Line"
  · rw [if_pos hl, if_pos hl]
  · rw [if_neg hl, if_neg hl]
    by_cases hd : pattern.name = "Dikit" ∨ pattern.name = "Patong"
    · rw [if_pos hd, if_neg (by tauto)]
    · rw [if_neg hd, if_pos (by tauto)]

/-- C1 (amended): every per-path record `analyzeGame` emits follows the
pattern-category rule (5 for the three line names, 2 for Dikit/Patong, grid
cardinality otherwise) with `totalMarked = totalRequired - missing length`;
the records of `analyzeCardForPattern` (in particular the winner records
`analyzeGame` emits) instead carry `totalRequired = 2` with
`totalMarked ∈ {2, 1}` for Dikit/Patong, and
`totalRequired = 2 + grid cardinality` (line names included) with
`totalMarked = totalRequired - missing length` for every other name.  The
last conjunct grounds which records `analyzeGame` emits. -/
theorem analysis_totals_spec (card : BingoCard) (pattern : WinningPattern) :
    (∀ a ∈ pathRecords card pattern,
      a.totalRequired =
        (if pattern.name = "Horizontal Line" ∨ pattern.name = "Vertical Line" ∨
            pattern.name = "Diagonal Line" then 5
          else if pattern.name = "Dikit" ∨ pattern.name = "Patong" then 2
          else (gridTrueCount pattern : Int)) ∧
      a.totalMarked = a.totalRequired - (a.missingNumbers.length : Int)) ∧
    ((pattern.name = "Dikit" ∨ pattern.name = "Patong") →
      (analyzeCardForPattern card pattern).totalRequired = 2 ∧
      (analyzeCardForPattern card pattern).totalMarked =
        (if (getMissingNumbers card pattern).length = 0 then 2 else 1)) ∧
    (¬ (pattern.name = "Dikit" ∨ pattern.name = "Patong") →
      (analyzeCardForPattern card pattern).totalRequired =
        2 + (gridTrueCount pattern : Int) ∧
      (analyzeCardForPattern card pattern).totalMarked =
        2 + (gridTrueCount pattern : Int) -
          ((getMissingNumbers card pattern).length : Int)) ∧
    (∀ (cards : List BingoCard) (patterns : List WinningPattern),
      (analyzeGame cards patterns).cardAnalyses =
        cards.flatMap fun c => patterns.flatMap fun q =>
          if checkPattern c q then [analyzeCardForPattern c q] else pathRecords c q) := by
  refine ⟨?_, ?_, ?_, ?_⟩
  · intro a ha
    rw [← perPathTotalRequired_cases]
    simp only [pathRecords, List.mem_filterMap] at ha
    obtain ⟨q, hq, hsome⟩ := ha
    by_cases h0 : q.2.length = 0
    · rw [if_pos h0] at hsome
      cases hsome
    · rw [if_neg h0] at hsome
      by_cases htm : (0 : Int) < perPathTotalRequired pattern - (q.2.length : Int)
      · rw [if_pos htm] at hsome
        have := Option.some_injective _ hsome
        subst this
        exact ⟨rfl, rfl⟩
      · rw [if_neg htm] at hsome
        cases hsome
  · intro hd
    unfold analyzeCardForPattern
    rw [if_pos hd]
    refine ⟨rfl, ?_⟩
    by_cases h0 : (getMissingNumbers card pattern).length = 0
    · simp [h0]
    · by_cases h1 : (getMissingNumbers card pattern).length = 1 <;> simp [h0, h1]
  · intro hd
    unfold analyzeCardForPattern
    rw [if_neg hd]
    exact ⟨rfl, rfl⟩
  · intro cards patterns
    unfold analyzeGame
    induction cards with
    | nil => rfl
    | cons c cs ih =>
      simp only [List.flatMap_cons, List.flatMap_append] at ih ⊢
      rw [ih]
      clear ih
      congr 1
      induction patterns with
      | nil => rfl
      | cons q qs ihq =>
        simp only [List.map_cons, List.flatMap_cons] at ihq ⊢
        rw [← ihq]
        congr 1
        by_cases hcp : checkPattern c q
        · rw [if_pos hcp, if_pos hcp]
        · rw [if_neg hcp, if_neg hcp]

/-- C1 witness: the amended theorem applied to the tied-pairs card with the
Dikit pattern (a per-path record and the Dikit aggregate branch). -/
theorem analysis_totals_spec_witness :
    (dikitPat.name = "Dikit" ∨ dikitPat.name = "Patong") ∧
    ((analyzeCardForPattern tiedPairsCard dikitPat).totalRequired = 2 ∧
      (analyzeCardForPattern tiedPairsCard dikitPat).totalMarked =
        (if (getMissingNumbers tiedPairsCard dikitPat).length = 0 then 2 else 1)) ∧
    (∀ a ∈ pathRecords tiedPairsCard dikitPat,
      a.totalRequired =
        (if dikitPat.name = "Horizontal Line" ∨ dikitPat.name = "Vertical Line" ∨
            dikitPat.name = "Diagonal Line" then 5
          else if dikitPat.name = "Dikit" ∨ dikitPat.name = "Patong" then 2
          else (gridTrueCount dikitPat : Int)) ∧
      a.totalMarked = a.totalRequired - (a.missingNumbers.length : Int)) :=
  ⟨Or.inl rfl,
    (analysis_totals_spec tiedPairsCard dikitPat).2.1 (Or.inl rfl),
    (analysis_totals_spec tiedPairsCard dikitPat).1⟩

end Bingo
